import Mathlib

/-!
Verification development for the Lama bytecode interpreter.

Shallow embedding notes (32-bit target, as fixed by the source's
`std::bit_cast<u32>` casts of pointers):

* Machine words (`usize`) are modelled as `Nat` values below `2 ^ 32`;
  conversions through signed 32-bit integers (`i32`) go through `Int`.
* The value stack's backing array `innerData` is modelled as a total
  function `Int → Nat` from element indices to stored words, so that
  out-of-bounds writes of the C++ code stay observable; index `i`
  stands for the address `innerData.data() + i`, and a pointer stored
  on the stack (`bit_cast<usize>`) is encoded as its index modulo
  `2 ^ 32`.
* Pointer subtraction followed by a cast to `usize` wraps modulo
  `2 ^ 32`, exactly as in `Stack::enoughToPush` / `enoughToPop`.
* Code addresses (`u8*` into the bytecode) are modelled as byte
  offsets; the null pointer is the offset `0` sentinel pushed by the
  stack constructor (no genuine return address is ever offset `0`,
  since return addresses are recorded after at least one opcode byte).
* The external GC heap is out of scope per the specification; calls
  into the runtime bridge (`Bstring`, `Belem`, `alloc_*`, ...) are
  abstracted as fields of a `Runtime` record, and heap stores are not
  tracked.
-/

/-- 2 ^ 32, the modulus of `usize` / `u32` arithmetic on the 32-bit target. -/
def wordMod : Nat := 4294967296

/-- Interpret an `Int` as an unsigned 32-bit word (C++ conversion to `usize`/`u32`). -/
def wordOfInt (x : Int) : Nat := (x % (4294967296 : Int)).toNat

/-- Interpret a word as a signed 32-bit integer (C++ cast to `int`). -/
def wordToInt (w : Nat) : Int :=
  if w % 4294967296 < 2147483648 then ((w % 4294967296 : Nat) : Int)
  else ((w % 4294967296 : Nat) : Int) - 4294967296

/-- Wrap an `Int` into the signed 32-bit range (two's-complement overflow of `int`). -/
def i32wrap (x : Int) : Int := (x + 2147483648) % 4294967296 - 2147483648

/-- Modelled from the spec: `BOX(n) = (n << 1) | 1`, producing a Word with the
low tag bit set (the macro lives in the external `runtime_common.h`, which is
not part of the sources; the specification gives its definition). -/
def BOX (n : Int) : Nat := wordOfInt (2 * n + 1)

/-- Modelled from the spec: `UNBOX(w) = w >> 1`, an arithmetic right shift of
the word interpreted as a signed integer (from the external
`runtime_common.h`; the specification gives its definition). -/
def UNBOX (w : Nat) : Int := wordToInt w / 2

/-- `satAdd` from `Utils.hpp`: `u32` addition saturating at `UINT32_MAX`. -/
def satAdd (lhs rhs : Nat) : Nat :=
  let res := (lhs + rhs) % 4294967296
  if res < lhs then 4294967295 else res

/-- `MAX_STACK_SIZE` from `Interpreter.hpp`. -/
def MAX_STACK_SIZE : Nat := 100000

/-- The value stack of `Interpreter.hpp` / `Interpreter.cpp`.  `mem i` is the
word held at element index `i` of `innerData`; `top` is the index the global
`__gc_stack_top` points at, `begin` and `bp` are the indices of the
corresponding member pointers. -/
structure Stack where
  mem : Int → Nat
  top : Int
  begin : Int
  bp : Int
  nArgs : Nat
  nLocals : Nat
  globalsSize : Nat

/-- `Stack::push`: store at `*top`, then decrement the top pointer. -/
def Stack.push (s : Stack) (v : Nat) : Stack :=
  { s with mem := fun j => if j = s.top then v % 4294967296 else s.mem j
           top := s.top - 1 }

/-- `Stack::pop`: increment the top pointer, read the exposed slot. -/
def Stack.pop (s : Stack) : Stack × Nat :=
  ({ s with top := s.top + 1 }, s.mem (s.top + 1))

/-- `Stack::top`: read the slot just above the top pointer. -/
def Stack.topVal (s : Stack) : Nat := s.mem (s.top + 1)

/-- `Stack::enoughToPush`: `static_cast<usize>(innerData.data() - __gc_stack_top) >= n`.
The pointer difference is `-top` elements; the cast to `usize` wraps modulo
`2 ^ 32`. -/
def Stack.enoughToPush (s : Stack) (n : Nat) : Bool :=
  n ≤ ((0 - s.top) % (4294967296 : Int)).toNat

/-- `Stack::enoughToPop`: `static_cast<usize>(begin - __gc_stack_top) >= n`. -/
def Stack.enoughToPop (s : Stack) (n : Nat) : Bool :=
  n ≤ ((s.begin - s.top) % (4294967296 : Int)).toNat

/-- `Stack::Stack(u32 globalsSizeWords)`: bottom is the last slot, the globals
sit below it, `begin`/`bp` start just above the globals, and the constructor
pushes `BOX(0)` (ultimate result) then `0` (the stop sentinel). -/
def mkStack (globalsSizeWords : Nat) : Stack :=
  let bottom : Int := (MAX_STACK_SIZE : Int) - 1
  let s : Stack :=
    { mem := fun _ => 0
      top := bottom - globalsSizeWords
      begin := bottom - globalsSizeWords
      bp := bottom - globalsSizeWords
      nArgs := 2
      nLocals := 0
      globalsSize := globalsSizeWords }
  (s.push (BOX 0)).push 0

/-- A reference produced by `Stack::getReference`: either the index of a slot
of the stack array, or an address inside a heap object (for captured
variables, which dereference the closure pointer saved in the caller frame). -/
inductive Ref where
  | stk (i : Int)
  | heap (a : Nat)
deriving DecidableEq

/-- `Stack::getReference(index, kind)`.  `kind` is the raw low nibble of the
opcode (`VariableType`): 0 = Global, 1 = Local, 2 = Argument, 3 = Captured;
any other value falls through the `switch` to `std::nullopt`.  Captured
references add cell offsets to the closure pointer word (4-byte cells). -/
def Stack.getReference (s : Stack) (index : Nat) (kind : Nat) : Option Ref :=
  match kind with
  | 0 => if s.globalsSize < index then none
         else some (.stk (s.begin + 1 + index))
  | 1 => if s.nLocals ≤ index then none
         else some (.stk (s.bp - 1 - index))
  | 2 => if s.nArgs ≤ index then none
         else some (.stk (s.bp + 3 + s.nArgs - index))
  | 3 => some (.heap (s.mem (s.bp + 3 + s.nArgs + 1) + 4 * (1 + index)))
  | _ => none

/-- `Stack::prologue(beginInClosure, newNArgs, newNLocals)` (the closure flag
is unused by the source).  Pushes the caller's boxed `nArgs` and `nLocals` and
its raw `bp`, installs the callee counters, reserves `newNLocals + 1` slots and
zero-fills `newNLocals + 2` cells with `BOX(0)`.  Returns `none` when the
`enoughToPush` guard rejects (the C++ returns `false`). -/
def Stack.prologue (s : Stack) (newNArgs newNLocals : Nat) : Option Stack :=
  if ¬ s.enoughToPush (satAdd 4 newNLocals) then none
  else
    let s1 := s.push (BOX s.nArgs)
    let s2 := s1.push (BOX s.nLocals)
    let s3 := s2.push (wordOfInt s.bp)
    let bp' := s3.top + 1
    let top' := s3.top - (((newNLocals + 1) % 4294967296 : Nat) : Int)
    let hi := top' + (((newNLocals + 2) % 4294967296 : Nat) : Int)
    some { s3 with nArgs := newNArgs
                   nLocals := newNLocals
                   bp := bp'
                   top := top'
                   mem := fun j => if top' ≤ j ∧ j < hi then BOX 0 else s3.mem j }

/-- `Stack::epilogue(isClosure)`.  Returns `none` when the `enoughToPop` guard
rejects (the C++ returns `nullptr` there); otherwise returns the new stack and
the word popped as the return address (`0` encodes the null sentinel). -/
def Stack.epilogue (s : Stack) (isClosure : Bool) : Option (Stack × Nat) :=
  let valuesToPop : Nat := 5 + (if isClosure then 1 else 0)
  if ¬ s.enoughToPop (satAdd valuesToPop s.nArgs) then none
  else
    let p1 := s.pop
    let retval := p1.2
    let nArgsOld := s.nArgs
    let s2 : Stack := { p1.1 with top := p1.1.bp - 1 }
    let p2 := s2.pop
    let p3 := p2.1.pop
    let p4 := p3.1.pop
    let p5 := p4.1.pop
    let returnAddress := p5.2
    let s6 : Stack :=
      { p5.1 with bp := (p2.2 : Int)
                  nLocals := (UNBOX p3.2 % (4294967296 : Int)).toNat
                  nArgs := (UNBOX p4.2 % (4294967296 : Int)).toNat
                  top := p5.1.top + nArgsOld }
    let s7 := if isClosure then (s6.pop).1 else s6
    some (s7.push retval, returnAddress)

/-- `Stack::closureRelativeAddr(args)`: read the closure pointer sitting at
`top + 1 + args`, dereference it in the heap (its first cell is the code
address) and truncate to `u32`. -/
def Stack.closureRelativeAddr (heapRead : Nat → Nat) (s : Stack) (args : Nat) : Nat :=
  heapRead (s.mem (s.top + 1 + args)) % 4294967296

/-- Push a list of words in order (used to state pre-call stack layouts). -/
def Stack.pushMany (s : Stack) (vs : List Nat) : Stack :=
  vs.foldl (fun t v => t.push v) s

/-- The views of a successfully parsed bytefile, as byte offsets and lengths
into the loaded buffer.  `pubCount` is the element count of the `span<u32>`
(`publicSymbolsNumber * 2` as `usize`), so the view spans `4 * pubCount`
bytes. -/
structure BytefileRegions where
  pubOff : Nat
  pubCount : Nat
  strOff : Nat
  strLen : Nat
  bcOff : Nat
  bcLen : Nat
  globalAreaSize : Nat
deriving DecidableEq

/-- `Bytefile::readBytefile`, as a function of the file size and the three
header words (`strPoolSize`, `globalAreaSize`, `publicSymbolsNumber`) — the
only data its control flow consumes.  All `u32` computations wrap modulo
`2 ^ 32` exactly as in the source:
* check 1 compares `publicSymbolsNumber * 2 + headerSize` (a `u32`) with the
  file size;
* check 2 compares `strPoolSize + publicSymbolsNumber * 2 + headerSize`;
* the string-pool offset adds `publicSymbolsNumber * 2 * sizeof(i32)` where
  `publicSymbolsNumber * 2` wraps as `u32` before the promotion;
* check 3 recomputes the remaining bytecode size from the *views* set by the
  earlier checks (`publicSymbols.size() * sizeof(i32)` in `usize`) and fails
  when it is zero or wraps past the file size.
Returns `none` when the diagnostics bag is non-empty. -/
def readBytefile (fileSize strPoolSize globalAreaSize psn : Nat) : Option BytefileRegions :=
  let check1fail := fileSize ≤ (psn * 2 + 12) % 4294967296
  let pubCount := if check1fail then 0 else psn * 2 % 4294967296
  let check2fail := fileSize ≤ (strPoolSize + psn * 2 % 4294967296 + 12) % 4294967296
  let strOff := (12 + psn * 2 % 4294967296 * 4 % 4294967296) % 4294967296
  let strLen := if check2fail then 0 else strPoolSize
  let bytecodeSize := wordOfInt ((fileSize : Int) - (pubCount * 4 % 4294967296 : Nat) - strLen - 12)
  let check3fail := bytecodeSize = 0 ∨ fileSize ≤ bytecodeSize
  let bcOff := (12 + pubCount * 4 % 4294967296 + strLen) % 4294967296
  if check1fail ∨ check2fail ∨ check3fail then none
  else some { pubOff := 12
              pubCount := pubCount
              strOff := strOff
              strLen := strLen
              bcOff := bcOff
              bcLen := bytecodeSize
              globalAreaSize := globalAreaSize }

/-- The cursor state of a loaded `Bytefile`: the string pool and bytecode
views (as byte lists), the instruction pointer as a byte offset into the
bytecode, the diagnostic line, and `prevIP`. -/
structure Bf where
  strPool : List Nat
  bytecode : List Nat
  ip : Nat
  fileLine : Nat
  prevIP : Option Nat

/-- Read one bytecode byte.  Reading past the end of the buffer is undefined
behaviour in the C++; it is modelled as returning `0`. -/
def Bf.byteAt (bf : Bf) (j : Nat) : Nat := bf.bytecode.getD j 0

/-- Read a little-endian 32-bit value at byte offset `j` (`copyValues`). -/
def Bf.u32At (bf : Bf) (j : Nat) : Nat :=
  bf.byteAt j + 256 * bf.byteAt (j + 1) + 65536 * bf.byteAt (j + 2) +
    16777216 * bf.byteAt (j + 3)

/-- `Bytefile::getNextInt`: read an `i32` at IP, advance by 4 (no check). -/
def Bf.getNextInt (bf : Bf) : Bf × Int :=
  ({ bf with ip := bf.ip + 4 }, wordToInt (bf.u32At bf.ip))

/-- `Bytefile::getNextUnsigned`: read a `u32` at IP, advance by 4 (no check). -/
def Bf.getNextUnsigned (bf : Bf) : Bf × Nat :=
  ({ bf with ip := bf.ip + 4 }, bf.u32At bf.ip)

/-- `Bytefile::getNextCode`: record `prevIP`, read one byte, advance by 1. -/
def Bf.getNextCode (bf : Bf) : Bf × Nat :=
  ({ bf with ip := bf.ip + 1, prevIP := some bf.ip }, bf.byteAt bf.ip)

/-- `Bytefile::peekNextCode`. -/
def Bf.peekNextCode (bf : Bf) : Nat := bf.byteAt bf.ip

/-- `Bytefile::trySetAddress`: fails unless the target is strictly inside the
bytecode view. -/
def Bf.trySetAddress (bf : Bf) (absoluteAddress : Nat) : Option Bf :=
  if bf.bytecode.length ≤ absoluteAddress then none
  else some { bf with ip := absoluteAddress }

/-- `Bytefile::address`: the current IP offset. -/
def Bf.address (bf : Bf) : Nat := bf.ip

/-- `Bytefile::enoughBytes`: `bytecode.size() - usize(ip - begin) >= bytes`
(the subtraction wraps as `usize` when IP has run past the end). -/
def Bf.enoughBytes (bf : Bf) (bytes : Nat) : Bool :=
  bytes ≤ wordOfInt ((bf.bytecode.length : Int) - (bf.ip : Int))

/-- `Bytefile::getString`: a view into the string pool, identified here by its
offset; fails when the offset is outside the pool. -/
def Bf.getString (bf : Bf) (position : Nat) : Option Nat :=
  if bf.strPool.length ≤ position then none else some position

/-- `Bytefile::getNextString`: checked read of a `u32` pool index, then
`getString` (the index read may still be rejected after IP has advanced). -/
def Bf.getNextString (bf : Bf) : Bf × Option Nat :=
  if ¬ bf.enoughBytes 4 then (bf, none)
  else
    let p := bf.getNextUnsigned
    (p.1, p.1.getString p.2)

/-- `Bytefile::closureArray(n)`: reinterpret the next `5 * n` bytes as packed
`(u8 kind, u32 index)` records and advance IP by `5 * n` — with no bounds
check, exactly as in the source. -/
def Bf.closureArray (bf : Bf) (n : Nat) : Bf × List (Nat × Nat) :=
  ({ bf with ip := bf.ip + 5 * n },
   (List.range n).map fun k => (bf.byteAt (bf.ip + 5 * k), bf.u32At (bf.ip + 5 * k + 1)))

/-- `InterpretResult` from `Interpreter.hpp`, extended with `TRAP`, which
models the aborting control paths (`FAIL()` = `std::terminate`, and the
hardware trap of an undefined integer division); those paths never return an
enum value in the source. -/
inductive InterpretResult where
  | CONTINUE
  | STOP
  | ERROR
  | TRAP
deriving DecidableEq

/-- The runtime bridge (`LamaRuntime.hpp`): external heap/GC helpers, treated
as an interface.  Heap reads are `heapRead`; allocators return the word pushed
for the new object (for `alloc_sexp`, the address of the tag cell); heap
stores performed by the handlers are not tracked. -/
structure Runtime where
  heapRead : Nat → Nat
  bstring : Nat → Nat
  llength : Nat → Int
  belem : Nat → Int → Nat
  bsta : Nat → Int → Nat → Nat
  allocArray : Nat → Nat
  allocSexp : Nat → Nat
  allocClosure : Nat → Option Nat
  tagHash : Nat → Int
  btag : Nat → Int → Nat → Int
  lstring : Nat → Nat
  bstringPatt : Nat → Nat → Int
  bstringTagPatt : Nat → Int
  barrayTagPatt : Nat → Int
  bsexpTagPatt : Nat → Int
  bboxedPatt : Nat → Int
  bunboxedPatt : Nat → Int
  bclosureTagPatt : Nat → Int
  barrayPatt : Nat → Nat → Int

/-- A trivial runtime instance (used to instantiate witnesses). -/
def rtTrivial : Runtime :=
  { heapRead := fun _ => 0
    bstring := fun _ => 0
    llength := fun _ => 0
    belem := fun _ _ => 0
    bsta := fun _ _ _ => 0
    allocArray := fun _ => 0
    allocSexp := fun _ => 0
    allocClosure := fun _ => none
    tagHash := fun _ => 0
    btag := fun _ _ _ => 0
    lstring := fun _ => 0
    bstringPatt := fun _ _ => 0
    bstringTagPatt := fun _ => 0
    barrayTagPatt := fun _ => 0
    bsexpTagPatt := fun _ => 0
    bboxedPatt := fun _ => 0
    bunboxedPatt := fun _ => 0
    bclosureTagPatt := fun _ => 0
    barrayPatt := fun _ _ => 0 }

/-- The interpreter object: the `isClosure` flag and the value stack, plus the
console streams consumed/produced by `Lread`/`Lwrite`. -/
structure Interp where
  isClosure : Bool
  stack : Stack
  input : List Int
  output : List Int

/-- The interpreter state at construction (`Interpreter::Interpreter`). -/
def mkInterp (globalsSize : Nat) (input : List Int) : Interp :=
  { isClosure := false, stack := mkStack globalsSize, input := input, output := [] }

/-- Raw store through a stack reference (`*(res.value()) = top`). -/
def Stack.writeStk (s : Stack) (i : Int) (v : Nat) : Stack :=
  { s with mem := fun j => if j = i then v else s.mem j }

/-- The word read through a reference (`*ref.value()`). -/
def readRef (rt : Runtime) (s : Stack) : Ref → Nat
  | .stk i => s.mem i
  | .heap a => rt.heapRead a

/-- The word obtained by `bit_cast<u32>` of a reference pointer (stack
addresses are encoded as their element index, see the module comment). -/
def refWord : Ref → Nat
  | .stk i => wordOfInt i
  | .heap a => a % 4294967296

/-- The `i32` result of one `BinOp`, or `none` for the aborting paths
(division/remainder by zero or `INT_MIN / -1`, and the unreachable
`default: FAIL()`).  `+`, `-`, `*` wrap on overflow; `/` and `%` are C
truncated division; comparisons produce `0`/`1`; `&&`/`||` treat any non-zero
operand as true. -/
def binOpDenote (low : Nat) (lhs rhs : Int) : Option Int :=
  match low with
  | 1 => some (i32wrap (lhs + rhs))
  | 2 => some (i32wrap (lhs - rhs))
  | 3 => some (i32wrap (lhs * rhs))
  | 4 => if rhs = 0 ∨ (lhs = -2147483648 ∧ rhs = -1) then none else some (Int.tdiv lhs rhs)
  | 5 => if rhs = 0 ∨ (lhs = -2147483648 ∧ rhs = -1) then none else some (Int.tmod lhs rhs)
  | 6 => some (if lhs < rhs then 1 else 0)
  | 7 => some (if lhs ≤ rhs then 1 else 0)
  | 8 => some (if rhs < lhs then 1 else 0)
  | 9 => some (if rhs ≤ lhs then 1 else 0)
  | 10 => some (if lhs = rhs then 1 else 0)
  | 11 => some (if lhs = rhs then 0 else 1)
  | 12 => some (if lhs ≠ 0 ∧ rhs ≠ 0 then 1 else 0)
  | 13 => some (if lhs ≠ 0 ∨ rhs ≠ 0 then 1 else 0)
  | _ => none

/-- `Interpreter::onBinOp`: check two pops, pop the right operand then the
left, unbox both into `i32`, push the boxed result.  `none` models the
aborting paths. -/
def onBinOp (m : Interp) (low : Nat) : Option (Interp × InterpretResult) :=
  if ¬ m.stack.enoughToPop 2 then some (m, .ERROR)
  else
    let p1 := m.stack.pop
    let rhs := UNBOX p1.2
    let p2 := p1.1.pop
    let lhs := UNBOX p2.2
    match binOpDenote low lhs rhs with
    | none => none
    | some r => some ({ m with stack := p2.1.push (BOX r) }, .CONTINUE)

/-- `Interpreter::onBegin`: run the prologue (the closure flag is unused). -/
def onBegin (m : Interp) (_beginInClosure : Bool) (nArgs nLocals : Nat) :
    Interp × InterpretResult :=
  match m.stack.prologue nArgs nLocals with
  | none => (m, .ERROR)
  | some s => ({ m with stack := s }, .CONTINUE)

/-- `Interpreter::onCallLRead`: push the (already boxed) value returned by the
external `Lread`, here the head of the input stream, converted through
`bit_cast<u32>`. -/
def onCallLRead (m : Interp) : Interp × InterpretResult :=
  if ¬ m.stack.enoughToPush 1 then (m, .ERROR)
  else ({ m with stack := m.stack.push (wordOfInt (m.input.headD 0))
                 input := m.input.tail }, .CONTINUE)

/-- `Interpreter::onLine`: a no-op. -/
def onLine (m : Interp) (_line : Nat) : Interp × InterpretResult := (m, .CONTINUE)

/-- `Interpreter::onStore`: read the top (without popping) and write it
through the resolved reference (heap stores are outside the model). -/
def onStore (m : Interp) (index kind : Nat) : Interp × InterpretResult :=
  if ¬ m.stack.enoughToPop 1 then (m, .ERROR)
  else
    let t := m.stack.topVal
    match m.stack.getReference index kind with
    | none => (m, .ERROR)
    | some (.stk i) => ({ m with stack := m.stack.writeStk i t }, .CONTINUE)
    | some (.heap _) => (m, .CONTINUE)

/-- `Interpreter::onDrop`. -/
def onDrop (m : Interp) : Interp × InterpretResult :=
  if ¬ m.stack.enoughToPop 1 then (m, .ERROR)
  else ({ m with stack := (m.stack.pop).1 }, .CONTINUE)

/-- `Interpreter::onLoad`: resolve the reference first (for diagnostics), then
check the push, then push the referenced word. -/
def onLoad (rt : Runtime) (m : Interp) (index kind : Nat) : Interp × InterpretResult :=
  match m.stack.getReference index kind with
  | none => (m, .ERROR)
  | some r =>
      if ¬ m.stack.enoughToPush 1 then (m, .ERROR)
      else ({ m with stack := m.stack.push (readRef rt m.stack r) }, .CONTINUE)

/-- `Interpreter::onConst`: push the boxed immediate. -/
def onConst (m : Interp) (value : Int) : Interp × InterpretResult :=
  if ¬ m.stack.enoughToPush 1 then (m, .ERROR)
  else ({ m with stack := m.stack.push (BOX value) }, .CONTINUE)

/-- `Interpreter::onCallLWrite`: pop, unbox, print, push `BOX(0)`. -/
def onCallLWrite (m : Interp) : Interp × InterpretResult :=
  if ¬ m.stack.enoughToPop 1 then (m, .ERROR)
  else
    let p := m.stack.pop
    ({ m with stack := p.1.push (BOX 0)
              output := m.output ++ [UNBOX p.2] }, .CONTINUE)

/-- `Interpreter::onEndOrRet`: run the epilogue unless `bp == begin - 1`;
clear `isClosure`; return the next IP (`0` = null = halt). -/
def onEndOrRet (m : Interp) : Interp × Nat :=
  if m.stack.bp ≠ m.stack.begin - 1 then
    match m.stack.epilogue m.isClosure with
    | none => ({ m with isClosure := false }, 0)
    | some (s, r) => ({ m with stack := s, isClosure := false }, r)
  else ({ m with isClosure := false }, 0)

/-- `Interpreter::onJump`. -/
def onJump (jumpLocation : Nat) : Nat := jumpLocation

/-- `Interpreter::onCondJump`: pop, unbox, pick the jump target or the
fall-through address. -/
def onCondJump (m : Interp) (isNotEq : Bool) (jumpLocation originalAddress : Nat) :
    Option (Interp × Nat) :=
  if ¬ m.stack.enoughToPop 1 then none
  else
    let p := m.stack.pop
    let t := UNBOX p.2
    let m' := { m with stack := p.1 }
    if (t = 0 ∧ isNotEq = false) ∨ (t ≠ 0 ∧ isNotEq = true) then some (m', jumpLocation)
    else some (m', originalAddress)

/-- `Interpreter::onCall`: push the return address, answer the call target. -/
def onCall (m : Interp) (location _nArgs originalIP : Nat) : Option (Interp × Nat) :=
  if ¬ m.stack.enoughToPush 1 then none
  else some ({ m with stack := m.stack.push originalIP }, location)

/-- `Interpreter::onString`: push the pointer returned by `Bstring`. -/
def onString (rt : Runtime) (m : Interp) (strOff : Nat) : Interp × InterpretResult :=
  if ¬ m.stack.enoughToPush 1 then (m, .ERROR)
  else ({ m with stack := m.stack.push (rt.bstring strOff) }, .CONTINUE)

/-- `Interpreter::onCallLLength`. -/
def onCallLLength (rt : Runtime) (m : Interp) : Interp × InterpretResult :=
  if ¬ m.stack.enoughToPop 1 then (m, .ERROR)
  else
    let p := m.stack.pop
    ({ m with stack := p.1.push (wordOfInt (rt.llength p.2)) }, .CONTINUE)

/-- `Interpreter::onElem`: pop the index then the object, push `Belem`. -/
def onElem (rt : Runtime) (m : Interp) : Interp × InterpretResult :=
  if ¬ m.stack.enoughToPop 2 then (m, .ERROR)
  else
    let p1 := m.stack.pop
    let p2 := p1.1.pop
    ({ m with stack := p2.1.push (rt.belem p2.2 (wordToInt p1.2)) }, .CONTINUE)

/-- `Interpreter::onSTA`: pop value, index, object; push `Bsta`. -/
def onSTA (rt : Runtime) (m : Interp) : Interp × InterpretResult :=
  if ¬ m.stack.enoughToPop 3 then (m, .ERROR)
  else
    let p1 := m.stack.pop
    let p2 := p1.1.pop
    let p3 := p2.1.pop
    ({ m with stack := p3.1.push (rt.bsta p1.2 (wordToInt p2.2) p3.2) }, .CONTINUE)

/-- `Interpreter::onCallBArray`: pop `n` values into a fresh array (the heap
writes are outside the model), push its pointer.  Note there is no
`enoughToPush` check before the final push. -/
def onCallBArray (rt : Runtime) (m : Interp) (n : Nat) : Interp × InterpretResult :=
  if ¬ m.stack.enoughToPop n then (m, .ERROR)
  else
    let s := { m.stack with top := m.stack.top + n }
    ({ m with stack := s.push (rt.allocArray n) }, .CONTINUE)

/-- `Interpreter::onSexp`: pop `n` fields into a fresh S-expression, push the
address of its tag cell.  No `enoughToPush` check precedes the push. -/
def onSexp (rt : Runtime) (m : Interp) (_tagOff n : Nat) : Interp × InterpretResult :=
  if ¬ m.stack.enoughToPop n then (m, .ERROR)
  else
    let s := { m.stack with top := m.stack.top + n }
    ({ m with stack := s.push (rt.allocSexp n) }, .CONTINUE)

/-- `Interpreter::onDuplicate`. -/
def onDuplicate (m : Interp) : Interp × InterpretResult :=
  if ¬ m.stack.enoughToPop 1 then (m, .ERROR)
  else if ¬ m.stack.enoughToPush 1 then (m, .ERROR)
  else ({ m with stack := m.stack.push m.stack.topVal }, .CONTINUE)

/-- `Interpreter::onTag`: pop the value, push the `Btag` verdict. -/
def onTag (rt : Runtime) (m : Interp) (nameOff n : Nat) : Interp × InterpretResult :=
  if ¬ m.stack.enoughToPop 1 then (m, .ERROR)
  else
    let p := m.stack.pop
    ({ m with stack := p.1.push (wordOfInt (rt.btag p.2 (rt.tagHash nameOff) (BOX n))) },
     .CONTINUE)

/-- `Interpreter::onCallLString`. -/
def onCallLString (rt : Runtime) (m : Interp) : Interp × InterpretResult :=
  if ¬ m.stack.enoughToPop 1 then (m, .ERROR)
  else
    let p := m.stack.pop
    ({ m with stack := p.1.push (rt.lstring p.2) }, .CONTINUE)

/-- `Interpreter::onLoadAccumulator`: resolve the reference, check room for
two pushes, push the address word twice. -/
def onLoadAccumulator (m : Interp) (index kind : Nat) : Interp × InterpretResult :=
  match m.stack.getReference index kind with
  | none => (m, .ERROR)
  | some r =>
      if ¬ m.stack.enoughToPush 2 then (m, .ERROR)
      else ({ m with stack := (m.stack.push (refWord r)).push (refWord r) }, .CONTINUE)

/-- `Interpreter::onClosure`: when `alloc_closure` yields null the handler
reports and returns `CONTINUE` with nothing pushed; otherwise each capture
descriptor is resolved (failure is an error) and the closure pointer is
pushed (the capture copies are heap writes, outside the model). -/
def onClosure (rt : Runtime) (m : Interp) (_address : Nat) (args : List (Nat × Nat)) :
    Interp × InterpretResult :=
  if ¬ m.stack.enoughToPush 1 then (m, .ERROR)
  else
    match rt.allocClosure (args.length + 1) with
    | none => (m, .CONTINUE)
    | some p =>
        if args.all (fun a => (m.stack.getReference a.2 a.1).isSome) then
          ({ m with stack := m.stack.push (p % 4294967296) }, .CONTINUE)
        else (m, .ERROR)

/-- `Interpreter::onCallClosure`: fetch the closure's code address relative to
the stacked arguments, push the return address, set the `isClosure` flag. -/
def onCallClosure (rt : Runtime) (m : Interp) (returnAddress nArgs : Nat) :
    Option (Interp × Nat) :=
  if ¬ m.stack.enoughToPush 1 then none
  else
    let addr := m.stack.closureRelativeAddr rt.heapRead nArgs
    some ({ m with stack := m.stack.push returnAddress, isClosure := true }, addr)

/-- `Interpreter::onPattern`.  `PATT =str` pops two operands (its extra
`checkStackPop` re-tests the same predicate on the unchanged stack); the
other kinds pop one and push the `bit_cast` predicate verdict.  A kind
outside the enum would leave `result = 0` and push it (unreachable from the
dispatcher). -/
def onPattern (rt : Runtime) (m : Interp) (kind : Nat) : Interp × InterpretResult :=
  if ¬ m.stack.enoughToPop 1 then (m, .ERROR)
  else
    match kind with
    | 0 =>
        let p1 := m.stack.pop
        let p2 := p1.1.pop
        ({ m with stack := p2.1.push (wordOfInt (rt.bstringPatt p1.2 p2.2)) }, .CONTINUE)
    | 1 =>
        let p := m.stack.pop
        ({ m with stack := p.1.push (wordOfInt (rt.bstringTagPatt p.2)) }, .CONTINUE)
    | 2 =>
        let p := m.stack.pop
        ({ m with stack := p.1.push (wordOfInt (rt.barrayTagPatt p.2)) }, .CONTINUE)
    | 3 =>
        let p := m.stack.pop
        ({ m with stack := p.1.push (wordOfInt (rt.bsexpTagPatt p.2)) }, .CONTINUE)
    | 4 =>
        let p := m.stack.pop
        ({ m with stack := p.1.push (wordOfInt (rt.bboxedPatt p.2)) }, .CONTINUE)
    | 5 =>
        let p := m.stack.pop
        ({ m with stack := p.1.push (wordOfInt (rt.bunboxedPatt p.2)) }, .CONTINUE)
    | 6 =>
        let p := m.stack.pop
        ({ m with stack := p.1.push (wordOfInt (rt.bclosureTagPatt p.2)) }, .CONTINUE)
    | _ => ({ m with stack := m.stack.push 0 }, .CONTINUE)

/-- `Interpreter::onArray`: pop, push the `Barray_patt` verdict. -/
def onArray (rt : Runtime) (m : Interp) (size : Nat) : Interp × InterpretResult :=
  if ¬ m.stack.enoughToPop 1 then (m, .ERROR)
  else
    let p := m.stack.pop
    ({ m with stack := p.1.push (wordOfInt (rt.barrayPatt p.2 (BOX size))) }, .CONTINUE)

/-- `Interpreter::onSwap`. -/
def onSwap (m : Interp) : Interp × InterpretResult :=
  if ¬ m.stack.enoughToPop 2 then (m, .ERROR)
  else
    let p1 := m.stack.pop
    let p2 := p1.1.pop
    ({ m with stack := (p2.1.push p1.2).push p2.2 }, .CONTINUE)

/-- `Interpreter::onFail`: pop the two payload words when available, always
answer `ERROR`. -/
def onFail (m : Interp) : Interp × InterpretResult :=
  if ¬ m.stack.enoughToPop 2 then (m, .ERROR)
  else ({ m with stack := ((m.stack.pop).1.pop).1 }, .ERROR)

/-- The outcome of one dispatcher step: a result with the updated cursor and
interpreter, or an aborted process (`std::terminate` / hardware trap). -/
inductive StepRes where
  | ok (res : InterpretResult) (bf : Bf) (m : Interp)
  | trap

/-- Package a handler verdict with the cursor. -/
def finish (bf : Bf) (p : Interp × InterpretResult) : StepRes := .ok p.2 bf p.1

/-- `interpretOne` from `Main.cpp`: fetch the opcode (checking one byte
remains), dispatch on it, fetching operands exactly where — and only where —
the source checks and reads them. -/
def interpretOne (rt : Runtime) (bf : Bf) (m : Interp) : StepRes :=
  if ¬ bf.enoughBytes 1 then .ok .ERROR bf m
  else
    let pc := bf.getNextCode
    let bf1 := pc.1
    let code := pc.2
    let low := code % 16
    match code with
    | 1 | 2 | 3 | 4 | 5 | 6 | 7 | 8 | 9 | 10 | 11 | 12 | 13 =>
        match onBinOp m low with
        | none => .trap
        | some p => .ok p.2 bf1 p.1
    | 0x10 =>
        if ¬ bf1.enoughBytes 4 then .ok .ERROR bf1 m
        else
          let p := bf1.getNextInt
          finish p.1 (onConst m p.2)
    | 0x11 =>
        let p := bf1.getNextString
        match p.2 with
        | none => .ok .ERROR p.1 m
        | some off => finish p.1 (onString rt m off)
    | 0x12 =>
        let p := bf1.getNextString
        match p.2 with
        | none => .ok .ERROR p.1 m
        | some tag =>
            if ¬ p.1.enoughBytes 4 then .ok .ERROR p.1 m
            else
              let q := p.1.getNextUnsigned
              finish q.1 (onSexp rt m tag q.2)
    | 0x13 => .trap
    | 0x14 => finish bf1 (onSTA rt m)
    | 0x15 =>
        if ¬ bf1.enoughBytes 4 then .ok .ERROR bf1 m
        else
          let p := bf1.getNextUnsigned
          match p.1.trySetAddress (onJump p.2) with
          | none => .ok .ERROR p.1 m
          | some bf2 => .ok .CONTINUE bf2 m
    | 0x16 | 0x17 =>
        let p := onEndOrRet m
        let bf2 := { bf1 with ip := p.2 }
        if p.2 = 0 then .ok .STOP bf2 p.1 else .ok .CONTINUE bf2 p.1
    | 0x18 => finish bf1 (onDrop m)
    | 0x19 => finish bf1 (onDuplicate m)
    | 0x1A => finish bf1 (onSwap m)
    | 0x1B => finish bf1 (onElem rt m)
    | 0x20 | 0x21 | 0x22 | 0x23 =>
        if ¬ bf1.enoughBytes 4 then .ok .ERROR bf1 m
        else
          let p := bf1.getNextUnsigned
          finish p.1 (onLoad rt m p.2 low)
    | 0x30 | 0x31 | 0x32 | 0x33 =>
        if ¬ bf1.enoughBytes 4 then .ok .ERROR bf1 m
        else
          let p := bf1.getNextUnsigned
          finish p.1 (onLoadAccumulator m p.2 low)
    | 0x40 | 0x41 | 0x42 | 0x43 =>
        if ¬ bf1.enoughBytes 4 then .ok .ERROR bf1 m
        else
          let p := bf1.getNextUnsigned
          finish p.1 (onStore m p.2 low)
    | 0x50 | 0x51 =>
        if ¬ bf1.enoughBytes 4 then .ok .ERROR bf1 m
        else
          let p := bf1.getNextUnsigned
          match onCondJump m (low % 2 = 1) p.2 p.1.address with
          | none => .ok .ERROR p.1 m
          | some q =>
              match p.1.trySetAddress q.2 with
              | none => .ok .ERROR p.1 q.1
              | some bf2 => .ok .CONTINUE bf2 q.1
    | 0x52 | 0x53 =>
        if ¬ bf1.enoughBytes 8 then .ok .ERROR bf1 m
        else
          let p := bf1.getNextUnsigned
          let q := p.1.getNextUnsigned
          finish q.1 (onBegin m (low % 2 = 1) p.2 q.2)
    | 0x54 =>
        if ¬ bf1.enoughBytes 8 then .ok .ERROR bf1 m
        else
          let p := bf1.getNextUnsigned
          let q := p.1.getNextUnsigned
          let ca := q.1.closureArray q.2
          finish ca.1 (onClosure rt m p.2 ca.2)
    | 0x55 =>
        if ¬ bf1.enoughBytes 4 then .ok .ERROR bf1 m
        else
          let p := bf1.getNextUnsigned
          match onCallClosure rt m p.1.ip p.2 with
          | none => .ok .ERROR p.1 m
          | some q =>
              match p.1.trySetAddress q.2 with
              | none => .ok .ERROR p.1 q.1
              | some bf2 =>
                  if bf2.peekNextCode ≠ 0x53 ∧ bf2.peekNextCode ≠ 0x52 then
                    .ok .ERROR bf2 q.1
                  else .ok .CONTINUE bf2 q.1
    | 0x56 =>
        if ¬ bf1.enoughBytes 8 then .ok .ERROR bf1 m
        else
          let p := bf1.getNextUnsigned
          let q := p.1.getNextUnsigned
          match onCall m p.2 q.2 q.1.ip with
          | none => .ok .ERROR q.1 m
          | some c =>
              match q.1.trySetAddress c.2 with
              | none => .ok .ERROR q.1 c.1
              | some bf2 =>
                  if bf2.peekNextCode ≠ 0x52 then .ok .ERROR bf2 c.1
                  else .ok .CONTINUE bf2 c.1
    | 0x57 =>
        let p := bf1.getNextString
        match p.2 with
        | none => .ok .ERROR p.1 m
        | some name =>
            let q := p.1.getNextUnsigned
            finish q.1 (onTag rt m name q.2)
    | 0x58 =>
        let p := bf1.getNextUnsigned
        finish p.1 (onArray rt m p.2)
    | 0x59 => finish bf1 (onFail m)
    | 0x5A =>
        let p := bf1.getNextUnsigned
        finish { p.1 with fileLine := p.2 } (onLine m p.2)
    | 0x60 | 0x61 | 0x62 | 0x63 | 0x64 | 0x65 | 0x66 =>
        finish bf1 (onPattern rt m low)
    | 0x70 => finish bf1 (onCallLRead m)
    | 0x71 => finish bf1 (onCallLWrite m)
    | 0x72 => finish bf1 (onCallLLength rt m)
    | 0x73 => finish bf1 (onCallLString rt m)
    | 0x74 =>
        let p := bf1.getNextUnsigned
        finish p.1 (onCallBArray rt m p.2)
    | _ => .ok .ERROR bf1 m

/-- A bytefile whose bytecode is the single byte `0x5A` (`LINE`) and nothing
else — the 4-byte operand is missing. -/
def bfLineOnly : Bf :=
  { strPool := [], bytecode := [0x5A], ip := 0, fileLine := 0, prevIP := none }

/-- A bytefile holding exactly one `CJMPz` instruction with its operand, so
the fall-through offset equals the bytecode size. -/
def bfCjmpAtEnd : Bf :=
  { strPool := [], bytecode := [0x50, 0, 0, 0, 0], ip := 0, fileLine := 0, prevIP := none }

/-- The interpreter state for the `CJMPz` counterexample: one value `BOX 1`
on the operand stack. -/
def mCjmpAtEnd : Interp :=
  { isClosure := false, stack := (mkStack 0).push (BOX 1), input := [], output := [] }

/-- A bytefile with `CJMPz 0` followed by `END`. -/
def bfCjmpWit : Bf :=
  { strPool := [], bytecode := [0x50, 0, 0, 0, 0, 0x16], ip := 0, fileLine := 0,
    prevIP := none }

/-- Interpreter state with `BOX 0` on top for the `condJump_semantics` witness. -/
def mCjmpWit : Interp :=
  { isClosure := false, stack := (mkStack 0).push (BOX 0), input := [], output := [] }

/-- Interpreter state with `BOX 20` (left) then `BOX 4` (right) pushed, for
the `onBinOp_semantics` witness. -/
def mBinOpWit : Interp :=
  { isClosure := false, stack := ((mkStack 0).push (BOX 20)).push (BOX 4),
    input := [], output := [] }

/-- A bytefile holding a single `END` opcode. -/
def bfEndWit : Bf :=
  { strPool := [], bytecode := [0x16], ip := 0, fileLine := 0, prevIP := none }

/-- Interpreter state after the implicit `BEGIN 2 0` prologue with a return
value pushed; its frame's saved return address is the construction-time zero
sentinel. -/
def mEndWit : Interp :=
  { isClosure := false
    stack := (((mkStack 0).prologue 2 0).getD (mkStack 0)).push (BOX 7)
    input := [], output := [] }

/-- A stack whose top pointer has descended to element index 1 (99,996 pushes
after construction) — only two slots of `innerData` remain. -/
def stackNearFull : Stack := (mkStack 0).pushMany (List.replicate 99996 1)

/-! ### Helper lemmas -/

theorem wordOfInt_lt (x : Int) : wordOfInt x < 4294967296 := by
  unfold wordOfInt; omega

theorem BOX_lt (n : Int) : BOX n < 4294967296 := wordOfInt_lt _

theorem UNBOX_BOX_of_range (n : Int) (h1 : -1073741824 ≤ n) (h2 : n < 1073741824) :
    UNBOX (BOX n) = n := by
  unfold UNBOX BOX wordOfInt wordToInt
  split <;> omega

theorem pushMany_top (s : Stack) (vs : List Nat) :
    (s.pushMany vs).top = s.top - vs.length := by
  induction vs generalizing s with
  | nil => simp [Stack.pushMany]
  | cons v vs ih =>
      simp only [Stack.pushMany, List.foldl_cons] at *
      rw [ih (s.push v)]
      simp [Stack.push]
      omega

theorem pushMany_begin (s : Stack) (vs : List Nat) :
    (s.pushMany vs).begin = s.begin := by
  induction vs generalizing s with
  | nil => simp [Stack.pushMany]
  | cons v vs ih =>
      simp only [Stack.pushMany, List.foldl_cons] at *
      rw [ih (s.push v)]; rfl

theorem pushMany_bp (s : Stack) (vs : List Nat) :
    (s.pushMany vs).bp = s.bp := by
  induction vs generalizing s with
  | nil => simp [Stack.pushMany]
  | cons v vs ih =>
      simp only [Stack.pushMany, List.foldl_cons] at *
      rw [ih (s.push v)]; rfl

theorem pushMany_nArgs (s : Stack) (vs : List Nat) :
    (s.pushMany vs).nArgs = s.nArgs := by
  induction vs generalizing s with
  | nil => simp [Stack.pushMany]
  | cons v vs ih =>
      simp only [Stack.pushMany, List.foldl_cons] at *
      rw [ih (s.push v)]; rfl

theorem pushMany_nLocals (s : Stack) (vs : List Nat) :
    (s.pushMany vs).nLocals = s.nLocals := by
  induction vs generalizing s with
  | nil => simp [Stack.pushMany]
  | cons v vs ih =>
      simp only [Stack.pushMany, List.foldl_cons] at *
      rw [ih (s.push v)]; rfl

theorem pushMany_globalsSize (s : Stack) (vs : List Nat) :
    (s.pushMany vs).globalsSize = s.globalsSize := by
  induction vs generalizing s with
  | nil => simp [Stack.pushMany]
  | cons v vs ih =>
      simp only [Stack.pushMany, List.foldl_cons] at *
      rw [ih (s.push v)]; rfl

theorem pushMany_mem_of_gt (s : Stack) (vs : List Nat) (j : Int) (h : s.top < j) :
    (s.pushMany vs).mem j = s.mem j := by
  induction vs generalizing s with
  | nil => simp [Stack.pushMany]
  | cons v vs ih =>
      simp only [Stack.pushMany, List.foldl_cons] at *
      rw [ih (s.push v) (by simp [Stack.push]; omega)]
      simp [Stack.push]
      intro hj; omega

theorem pushMany_mem_of_le (s : Stack) (vs : List Nat) (j : Int)
    (h : j ≤ s.top - vs.length) :
    (s.pushMany vs).mem j = s.mem j := by
  induction vs generalizing s with
  | nil => simp [Stack.pushMany]
  | cons v vs ih =>
      simp only [Stack.pushMany, List.foldl_cons, List.length_cons] at *
      rw [ih (s.push v) (by simp [Stack.push]; omega)]
      simp [Stack.push]
      intro hj; omega

/-! ### Claim theorems -/

/-- C8: for every integer `n` in the 31-bit signed range, `UNBOX (BOX n) = n`
(the arithmetic shift preserves the sign), and `BOX n` has its low bit set. -/
theorem box_unbox_roundtrip (n : Int)
    (h1 : -1073741824 ≤ n) (h2 : n < 1073741824) :
    UNBOX (BOX n) = n ∧ BOX n % 2 = 1 := by
  refine ⟨UNBOX_BOX_of_range n h1 h2, ?_⟩
  unfold BOX wordOfInt
  omega

/-- Witness for `box_unbox_roundtrip` at `n = -7`. -/
theorem box_unbox_roundtrip_witness :
    UNBOX (BOX (-7)) = -7 ∧ BOX (-7) % 2 = 1 :=
  box_unbox_roundtrip (-7) (by decide) (by decide)

/-- C9 counterexample: on a freshly constructed stack with 5 globals,
`getReference` accepts index `5 = globalsSize` and returns the slot index
`100000 = MAX_STACK_SIZE`, which is one past the last slot of `innerData` —
not inside the backing array. -/
theorem getReference_global_one_past_end :
    (mkStack 5).getReference 5 0 = some (.stk 100000) ∧
      ¬ ((100000 : Int) < (MAX_STACK_SIZE : Int)) := by
  constructor
  · decide
  · decide

/-- C9 (amended): on the stack built by the constructor, every global index
accepted by `getReference` yields the address `begin + 1 + index =
MAX_STACK_SIZE - globalsSize + index`; that address is a slot of the array
exactly when `index < globalsSize`, while the accepted boundary case
`index = globalsSize` yields `MAX_STACK_SIZE`, one past the last slot. -/
theorem getReference_global_amended (g index : Nat)
    (hg : g ≤ 99997) (hidx : index ≤ g) :
    (mkStack g).getReference index 0 =
        some (.stk ((MAX_STACK_SIZE : Int) - g + index)) ∧
      (index < g →
        0 ≤ (MAX_STACK_SIZE : Int) - g + index ∧
          (MAX_STACK_SIZE : Int) - g + index < (MAX_STACK_SIZE : Int)) ∧
      (index = g → (MAX_STACK_SIZE : Int) - g + index = (MAX_STACK_SIZE : Int)) := by
  unfold mkStack Stack.getReference Stack.push MAX_STACK_SIZE
  simp only []
  refine ⟨?_, ?_, ?_⟩
  · rw [if_neg (by omega)]
    congr 2
    omega
  · intro h; constructor <;> omega
  · intro h; omega

/-- Witness for `getReference_global_amended` at `g = 5`, `index = 3`. -/
theorem getReference_global_amended_witness :
    (mkStack 5).getReference 3 0 = some (.stk ((MAX_STACK_SIZE : Int) - 5 + 3)) ∧
      (3 < 5 →
        0 ≤ (MAX_STACK_SIZE : Int) - 5 + 3 ∧
          (MAX_STACK_SIZE : Int) - 5 + 3 < (MAX_STACK_SIZE : Int)) ∧
      ((3 : Nat) = 5 → (MAX_STACK_SIZE : Int) - 5 + 3 = (MAX_STACK_SIZE : Int)) :=
  getReference_global_amended 5 3 (by decide) (by decide)

/-- C10: when `alloc_closure` returns null during a CLOSURE instruction (and
the preceding push check passed), the handler answers `CONTINUE` with the
interpreter state unchanged — interpretation proceeds with nothing pushed. -/
theorem onClosure_null_alloc_continues (rt : Runtime) (m : Interp)
    (address : Nat) (args : List (Nat × Nat))
    (hpush : m.stack.enoughToPush 1 = true)
    (halloc : rt.allocClosure (args.length + 1) = none) :
    onClosure rt m address args = (m, .CONTINUE) := by
  unfold onClosure
  rw [hpush]
  simp [halloc]

/-- Witness for `onClosure_null_alloc_continues` on the trivial runtime. -/
theorem onClosure_null_alloc_continues_witness :
    onClosure rtTrivial (mkInterp 0 []) 7 [] = (mkInterp 0 [], .CONTINUE) :=
  onClosure_null_alloc_continues rtTrivial (mkInterp 0 []) 7 [] (by decide) rfl

/-- C2: on a 1 GiB + 20 byte file whose header declares `2 ^ 29` public-symbol
pairs and a 1-byte string pool, the three region bytes sum to
`12 + 8 * 2 ^ 29 + 1`, which exceeds the file size — yet `readBytefile`
succeeds (the failed checks compare `publicSymbolsNumber * 2`, the *entry*
count, against byte sizes, and the string-pool offset wraps modulo `2 ^ 32`).
The returned views place the string pool at offset 12, overlapping the
non-empty public-symbols view, whose `2 ^ 30` four-byte entries extend far
past the end of the buffer. -/
theorem readBytefile_pair_size_miscount :
    readBytefile (2 ^ 30 + 20) 1 0 (2 ^ 29) =
        some { pubOff := 12, pubCount := 2 ^ 30, strOff := 12, strLen := 1,
               bcOff := 13, bcLen := 2 ^ 30 + 7, globalAreaSize := 0 } ∧
      2 ^ 30 + 20 ≤ 12 + 8 * 2 ^ 29 + 1 ∧
      2 ^ 30 + 20 < 12 + 4 * 2 ^ 30 := by
  refine ⟨by decide, by decide, by decide⟩

/-- C3: dispatching `LINE` as the last byte of the bytecode reads its 4-byte
operand with no `enoughBytes` check: the step answers `CONTINUE` (not a
decoder error) and leaves the instruction pointer at offset 5, four bytes
past the end of the 1-byte buffer. -/
theorem line_operand_read_past_end :
    interpretOne rtTrivial bfLineOnly (mkInterp 0 []) =
        .ok .CONTINUE { strPool := [], bytecode := [0x5A], ip := 5,
                        fileLine := 0, prevIP := some 0 } (mkInterp 0 []) ∧
      bfLineOnly.bytecode.length = 1 := by
  exact ⟨rfl, rfl⟩

/-- C6 counterexample: with `BOX 1` on the stack, `CJMPz` at the end of the
bytecode pops a non-zero value, so the jump is *not* taken — yet the step
answers `ERROR` instead of falling through, because `trySetAddress` rejects
the fall-through offset `5`, which equals the bytecode size. -/
theorem condJump_fallthrough_at_end_errors :
    UNBOX mCjmpAtEnd.stack.topVal ≠ 0 ∧
      interpretOne rtTrivial bfCjmpAtEnd mCjmpAtEnd =
        .ok .ERROR { strPool := [], bytecode := [0x50, 0, 0, 0, 0], ip := 5,
                     fileLine := 0, prevIP := some 0 }
          { mCjmpAtEnd with stack := (mCjmpAtEnd.stack.pop).1 } := by
  exact ⟨by decide, rfl⟩

theorem onCondJump_eq (m : Interp) (b : Bool) (jl oa : Nat)
    (hpop : m.stack.enoughToPop 1 = true) :
    onCondJump m b jl oa =
      some ({ m with stack := (m.stack.pop).1 },
        if (UNBOX m.stack.topVal = 0 ∧ b = false) ∨ (UNBOX m.stack.topVal ≠ 0 ∧ b = true)
        then jl else oa) := by
  unfold onCondJump
  rw [hpop]
  simp only [Stack.topVal, Stack.pop, Bool.not_eq_true, ite_true, not_true, if_neg]
  split <;> split <;> first | rfl | (exfalso ; omega) | simp_all

/-- C6 (amended): a `CJMPz`/`CJMPnz` step with a non-empty operand stack pops
one value, unboxes it, and targets the operand address iff the value is zero
(`CJMPz`) / non-zero (`CJMPnz`), otherwise the fall-through offset; the step
continues at the target exactly when it is strictly inside the bytecode, and
errors otherwise — including for an out-of-range fall-through. -/
theorem condJump_semantics (rt : Runtime) (bf : Bf) (m : Interp) (c : Nat)
    (hcode : bf.byteAt bf.ip = c) (hc : c = 0x50 ∨ c = 0x51)
    (hbytes : bf.ip + 5 ≤ bf.bytecode.length)
    (hlen : bf.bytecode.length < 4294967296)
    (hpop : m.stack.enoughToPop 1 = true) :
    interpretOne rt bf m =
      (if (UNBOX m.stack.topVal = 0 ∧ c = 0x50) ∨ (UNBOX m.stack.topVal ≠ 0 ∧ c = 0x51)
       then (if bf.u32At (bf.ip + 1) < bf.bytecode.length
             then .ok .CONTINUE { bf with ip := bf.u32At (bf.ip + 1), prevIP := some bf.ip }
                    { m with stack := (m.stack.pop).1 }
             else .ok .ERROR { bf with ip := bf.ip + 5, prevIP := some bf.ip }
                    { m with stack := (m.stack.pop).1 })
       else (if bf.ip + 5 < bf.bytecode.length
             then .ok .CONTINUE { bf with ip := bf.ip + 5, prevIP := some bf.ip }
                    { m with stack := (m.stack.pop).1 }
             else .ok .ERROR { bf with ip := bf.ip + 5, prevIP := some bf.ip }
                    { m with stack := (m.stack.pop).1 })) := by
  have h1 : bf.enoughBytes 1 = true := by
    unfold Bf.enoughBytes wordOfInt; simp; omega
  have h4 : ({ bf with ip := bf.ip + 1, prevIP := some bf.ip } : Bf).enoughBytes 4 = true := by
    unfold Bf.enoughBytes wordOfInt; simp; omega
  have hu32 : ∀ j : Nat, ({ bf with ip := bf.ip + 1, prevIP := some bf.ip } : Bf).u32At j = bf.u32At j := by
    intro j; rfl
  have e45 : bf.ip + 1 + 4 = bf.ip + 5 := by omega
  rcases hc with rfl | rfl
  · unfold interpretOne
    simp only [Bf.getNextCode, hcode, h1]
    rw [if_neg (by simp)]
    rw [if_neg (by simp [h4])]
    rw [onCondJump_eq m _ _ _ hpop]
    simp only [Bf.getNextUnsigned, Bf.address, hu32]
    by_cases ht : UNBOX m.stack.topVal = 0
    · norm_num [ht]
      simp only [Bf.trySetAddress]
      by_cases hlt : bf.u32At (bf.ip + 1) < bf.bytecode.length
      · rw [if_neg (by omega), if_pos hlt]
      · rw [if_pos (by omega), if_neg hlt, e45]
    · norm_num [ht]
      simp only [Bf.trySetAddress, e45]
      by_cases hlt : bf.ip + 5 < bf.bytecode.length
      · rw [if_neg (by omega), if_pos hlt]
      · rw [if_pos (by omega), if_neg hlt]
  · unfold interpretOne
    simp only [Bf.getNextCode, hcode, h1]
    rw [if_neg (by simp)]
    rw [if_neg (by simp [h4])]
    rw [onCondJump_eq m _ _ _ hpop]
    simp only [Bf.getNextUnsigned, Bf.address, hu32]
    by_cases ht : UNBOX m.stack.topVal = 0
    · norm_num [ht]
      simp only [Bf.trySetAddress, e45]
      by_cases hlt : bf.ip + 5 < bf.bytecode.length
      · rw [if_neg (by omega), if_pos hlt]
      · rw [if_pos (by omega), if_neg hlt]
    · norm_num [ht]
      simp only [Bf.trySetAddress]
      by_cases hlt : bf.u32At (bf.ip + 1) < bf.bytecode.length
      · rw [if_neg (by omega), if_pos hlt]
      · rw [if_pos (by omega), if_neg hlt, e45]

/-- Witness for `condJump_semantics`: a taken `CJMPz` to offset 0. -/
theorem condJump_semantics_witness :
    interpretOne rtTrivial bfCjmpWit mCjmpWit =
      (if (UNBOX mCjmpWit.stack.topVal = 0 ∧ (0x50 : Nat) = 0x50) ∨
          (UNBOX mCjmpWit.stack.topVal ≠ 0 ∧ (0x50 : Nat) = 0x51)
       then (if bfCjmpWit.u32At (bfCjmpWit.ip + 1) < bfCjmpWit.bytecode.length
             then .ok .CONTINUE
                    { bfCjmpWit with ip := bfCjmpWit.u32At (bfCjmpWit.ip + 1),
                                     prevIP := some bfCjmpWit.ip }
                    { mCjmpWit with stack := (mCjmpWit.stack.pop).1 }
             else .ok .ERROR
                    { bfCjmpWit with ip := bfCjmpWit.ip + 5, prevIP := some bfCjmpWit.ip }
                    { mCjmpWit with stack := (mCjmpWit.stack.pop).1 })
       else (if bfCjmpWit.ip + 5 < bfCjmpWit.bytecode.length
             then .ok .CONTINUE
                    { bfCjmpWit with ip := bfCjmpWit.ip + 5, prevIP := some bfCjmpWit.ip }
                    { mCjmpWit with stack := (mCjmpWit.stack.pop).1 }
             else .ok .ERROR
                    { bfCjmpWit with ip := bfCjmpWit.ip + 5, prevIP := some bfCjmpWit.ip }
                    { mCjmpWit with stack := (mCjmpWit.stack.pop).1 })) :=
  condJump_semantics rtTrivial bfCjmpWit mCjmpWit 0x50 rfl (Or.inl rfl)
    (by decide) (by decide) (by decide)

/-- C4: a BINOP step with at least two stack values pops the right operand
first and the left second, unboxes both, and pushes `BOX (lhs op rhs)`
(leaving every other slot and all frame registers untouched); the comparison
operators produce `0` or `1`, and `and`/`or` treat any non-zero operand as
true. -/
theorem onBinOp_semantics (m : Interp) (low : Nat) (r : Int)
    (hpop : m.stack.enoughToPop 2 = true)
    (hdef : binOpDenote low (UNBOX (m.stack.mem (m.stack.top + 2)))
              (UNBOX (m.stack.mem (m.stack.top + 1))) = some r) :
    (∃ m', onBinOp m low = some (m', .CONTINUE) ∧
      m'.stack.top = m.stack.top + 1 ∧
      m'.stack.mem (m.stack.top + 2) = BOX r ∧
      (∀ j : Int, j ≠ m.stack.top + 2 → m'.stack.mem j = m.stack.mem j) ∧
      m'.stack.bp = m.stack.bp ∧ m'.stack.begin = m.stack.begin ∧
      m'.stack.nArgs = m.stack.nArgs ∧ m'.stack.nLocals = m.stack.nLocals) ∧
    (6 ≤ low → low ≤ 13 → r = 0 ∨ r = 1) ∧
    (low = 12 → (r = 1 ↔ (UNBOX (m.stack.mem (m.stack.top + 2)) ≠ 0 ∧
                          UNBOX (m.stack.mem (m.stack.top + 1)) ≠ 0))) ∧
    (low = 13 → (r = 1 ↔ (UNBOX (m.stack.mem (m.stack.top + 2)) ≠ 0 ∨
                          UNBOX (m.stack.mem (m.stack.top + 1)) ≠ 0))) := by
  have e2 : m.stack.top + 1 + 1 = m.stack.top + 2 := by ring
  constructor
  · unfold onBinOp
    rw [hpop]
    simp only [Stack.pop, e2, Stack.push, hdef]
    refine ⟨_, rfl, ?_, ?_, ?_, rfl, rfl, rfl, rfl⟩
    · simp only []
      ring
    · have := BOX_lt r
      simp only [if_true]
      omega
    · intro j hj
      simp only [if_neg hj]
  · refine ⟨?_, ?_, ?_⟩
    · intro h6 h13
      interval_cases low <;>
        simp only [binOpDenote, Option.some.injEq] at hdef <;>
        split at hdef <;> omega
    · intro hl
      subst hl
      simp only [binOpDenote, Option.some.injEq] at hdef
      split at hdef
      · constructor
        · intro _; assumption
        · intro _; omega
      · constructor
        · intro h1; omega
        · intro h; exact absurd h (by assumption)
    · intro hl
      subst hl
      simp only [binOpDenote, Option.some.injEq] at hdef
      split at hdef
      · constructor
        · intro _; assumption
        · intro _; omega
      · constructor
        · intro h1; omega
        · intro h; exact absurd h (by assumption)

/-- Witness for `onBinOp_semantics`: `20 - 4 = 16` via `BINOP_sub`. -/
theorem onBinOp_semantics_witness :
    (∃ m', onBinOp mBinOpWit 2 = some (m', .CONTINUE) ∧
      m'.stack.top = mBinOpWit.stack.top + 1 ∧
      m'.stack.mem (mBinOpWit.stack.top + 2) = BOX 16 ∧
      (∀ j : Int, j ≠ mBinOpWit.stack.top + 2 → m'.stack.mem j = mBinOpWit.stack.mem j) ∧
      m'.stack.bp = mBinOpWit.stack.bp ∧ m'.stack.begin = mBinOpWit.stack.begin ∧
      m'.stack.nArgs = mBinOpWit.stack.nArgs ∧ m'.stack.nLocals = mBinOpWit.stack.nLocals) ∧
    (6 ≤ 2 → 2 ≤ 13 → (16 : Int) = 0 ∨ (16 : Int) = 1) ∧
    ((2 : Nat) = 12 → ((16 : Int) = 1 ↔ (UNBOX (mBinOpWit.stack.mem (mBinOpWit.stack.top + 2)) ≠ 0 ∧
                          UNBOX (mBinOpWit.stack.mem (mBinOpWit.stack.top + 1)) ≠ 0))) ∧
    ((2 : Nat) = 13 → ((16 : Int) = 1 ↔ (UNBOX (mBinOpWit.stack.mem (mBinOpWit.stack.top + 2)) ≠ 0 ∨
                          UNBOX (mBinOpWit.stack.mem (mBinOpWit.stack.top + 1)) ≠ 0))) :=
  onBinOp_semantics mBinOpWit 2 16 (by decide) (by decide)

theorem epilogue_returns_saved_address (s : Stack) (b : Bool)
    (h : s.enoughToPop (satAdd (5 + (if b then 1 else 0)) s.nArgs) = true) :
    ∃ s', s.epilogue b = some (s', s.mem (s.bp + 3)) := by
  have hmap : (s.epilogue b).map Prod.snd = some (s.mem (s.bp + 3)) := by
    unfold Stack.epilogue
    simp only [h, Stack.pop]
    norm_num
    congr 1
    omega
  cases hE : s.epilogue b with
  | none => rw [hE] at hmap; simp at hmap
  | some p =>
      rw [hE] at hmap
      simp at hmap
      refine ⟨p.1, ?_⟩
      rw [← hmap]

/-- C5: an `END`/`RET` step in a frame whose saved return address is the zero
sentinel pushed at stack construction halts with `STOP`; in a frame whose
saved return address is non-null, the step continues with the instruction
pointer set to that address.  (`bp ≠ begin - 1` is the source's guard before
running the epilogue, and the epilogue's pop check must pass.) -/
theorem endOrRet_semantics (rt : Runtime) (bf : Bf) (m : Interp) (c : Nat)
    (hcode : bf.byteAt bf.ip = c) (hc : c = 0x16 ∨ c = 0x17)
    (hip : bf.ip < bf.bytecode.length) (hlen : bf.bytecode.length < 4294967296)
    (hbp : m.stack.bp ≠ m.stack.begin - 1)
    (hpop : m.stack.enoughToPop
      (satAdd (5 + (if m.isClosure then 1 else 0)) m.stack.nArgs) = true) :
    ∃ m' : Interp, m'.isClosure = false ∧
      interpretOne rt bf m =
        (if m.stack.mem (m.stack.bp + 3) = 0
         then .ok .STOP
                { bf with ip := m.stack.mem (m.stack.bp + 3), prevIP := some bf.ip } m'
         else .ok .CONTINUE
                { bf with ip := m.stack.mem (m.stack.bp + 3), prevIP := some bf.ip } m') := by
  have h1 : bf.enoughBytes 1 = true := by
    unfold Bf.enoughBytes wordOfInt; simp; omega
  obtain ⟨s', hs'⟩ := epilogue_returns_saved_address m.stack m.isClosure hpop
  refine ⟨{ m with stack := s', isClosure := false }, rfl, ?_⟩
  rcases hc with rfl | rfl <;> (
    unfold interpretOne
    simp only [Bf.getNextCode, hcode, h1]
    rw [if_neg (by simp)]
    unfold onEndOrRet
    rw [if_pos hbp, hs'])

/-- Witness for `endOrRet_semantics`: `END` in the outermost frame (saved
return address = zero sentinel) halts with `STOP`. -/
theorem endOrRet_semantics_witness :
    ∃ m' : Interp, m'.isClosure = false ∧
      interpretOne rtTrivial bfEndWit mEndWit =
        (if mEndWit.stack.mem (mEndWit.stack.bp + 3) = 0
         then .ok .STOP
                { bfEndWit with ip := mEndWit.stack.mem (mEndWit.stack.bp + 3),
                                prevIP := some bfEndWit.ip } m'
         else .ok .CONTINUE
                { bfEndWit with ip := mEndWit.stack.mem (mEndWit.stack.bp + 3),
                                prevIP := some bfEndWit.ip } m') :=
  endOrRet_semantics rtTrivial bfEndWit mEndWit 0x16 rfl (Or.inl rfl)
    (by decide) (by decide) (by decide) (by decide)

theorem prologue_zero_locals_writes (s : Stack)
    (hpush : s.enoughToPush (satAdd 4 0) = true) :
    ∃ s2, s.prologue 0 0 = some s2 ∧ s2.top = s.top - 4 ∧
      s2.mem (s.top - 2) = wordOfInt s.bp := by
  unfold Stack.prologue
  rw [hpush]
  norm_num
  simp only [Stack.push]
  refine ⟨by omega, ?_⟩
  rw [if_neg (by omega)]
  rw [if_pos (by omega)]
  exact Nat.mod_eq_of_lt (wordOfInt_lt _)

/-- C7: `enoughToPush` computes `innerData.data() - __gc_stack_top` — the
*negated* distance, whose cast to `usize` wraps — so with the top at element
index 1 the guard accepts a prologue needing 4 slots, and `BEGIN 0 0` then
writes the saved `bp` into element index `-1`, outside the backing array
(the zero-fill continues at indices `-3` and `-2`). -/
theorem prologue_overflow_check_bug :
    stackNearFull.top = 1 ∧
    stackNearFull.enoughToPush 4 = true ∧
    stackNearFull.mem (-1) = 0 ∧
    ∃ s2, stackNearFull.prologue 0 0 = some s2 ∧ s2.top = -3 ∧ s2.mem (-1) = 99999 := by
  have h0 : (mkStack 0).top = 99997 := by decide
  have htop : stackNearFull.top = 1 := by
    unfold stackNearFull
    rw [pushMany_top]
    simp only [List.length_replicate]
    omega
  have hbp : stackNearFull.bp = 99999 := by
    unfold stackNearFull
    rw [pushMany_bp]
    decide
  have hpush : stackNearFull.enoughToPush 4 = true := by
    unfold Stack.enoughToPush
    rw [htop]
    decide
  have hmem : stackNearFull.mem (-1) = 0 := by
    unfold stackNearFull
    rw [pushMany_mem_of_le]
    · decide
    · simp only [List.length_replicate]
      omega
  obtain ⟨s2, hpro, htop2, hmem2⟩ :=
    prologue_zero_locals_writes stackNearFull (by rw [show satAdd 4 0 = 4 from rfl]; exact hpush)
  rw [htop] at htop2 hmem2
  rw [hbp] at hmem2
  exact ⟨htop, hpush, hmem, s2, hpro, by omega, by norm_num at hmem2; rw [hmem2]; decide⟩

theorem prologue_fields (s : Stack) (a l : Nat)
    (h : s.enoughToPush (satAdd 4 l) = true) (hl : l < 1048576) :
    ∃ s2, s.prologue a l = some s2 ∧
      s2.top = s.top - l - 4 ∧ s2.bp = s.top - 2 ∧ s2.begin = s.begin ∧
      s2.nArgs = a ∧ s2.nLocals = l ∧ s2.globalsSize = s.globalsSize ∧
      (∀ j : Int, s.top - l - 4 ≤ j → j < s.top - 2 → s2.mem j = BOX 0) ∧
      s2.mem (s.top - 2) = wordOfInt s.bp ∧
      s2.mem (s.top - 1) = BOX s.nLocals ∧
      s2.mem s.top = BOX s.nArgs ∧
      (∀ j : Int, j < s.top - l - 4 ∨ s.top < j → s2.mem j = s.mem j) := by
  unfold Stack.prologue
  rw [h]
  rw [if_neg (fun hh => hh rfl)]
  simp only [Stack.push]
  refine ⟨_, rfl, ?_, by dsimp only; omega, rfl, rfl, rfl, rfl, ?_, ?_, ?_, ?_, ?_⟩
  · dsimp only
    omega
  · intro j hj1 hj2
    dsimp only
    rw [if_pos (by omega)]
  · dsimp only
    rw [if_neg (by omega), if_pos (by omega)]
    exact Nat.mod_eq_of_lt (wordOfInt_lt _)
  · dsimp only
    rw [if_neg (by omega), if_neg (by omega), if_pos (by omega)]
    exact Nat.mod_eq_of_lt (BOX_lt _)
  · dsimp only
    rw [if_neg (by omega), if_neg (by omega), if_neg (by omega), if_pos (by omega)]
    exact Nat.mod_eq_of_lt (BOX_lt _)
  · intro j hj
    dsimp only
    rw [if_neg (by omega), if_neg (by omega), if_neg (by omega), if_neg (by omega)]

theorem epilogue_false_fields (s : Stack)
    (h : s.enoughToPop (satAdd 5 s.nArgs) = true) :
    s.epilogue false =
      some ({ mem := fun j => if j = s.bp + 3 + s.nArgs
                              then s.mem (s.top + 1) % 4294967296 else s.mem j
              top := s.bp + 3 + s.nArgs - 1
              begin := s.begin
              bp := ((s.mem s.bp : Nat) : Int)
              nArgs := (UNBOX (s.mem (s.bp + 2)) % (4294967296 : Int)).toNat
              nLocals := (UNBOX (s.mem (s.bp + 1)) % (4294967296 : Int)).toNat
              globalsSize := s.globalsSize },
            s.mem (s.bp + 3)) := by
  unfold Stack.epilogue
  rw [show (5 + if false = true then 1 else 0) = 5 from rfl]
  simp only [h, not_true, if_false, Stack.pop, Stack.push, Bool.false_eq_true]
  rw [show s.bp - 1 + 1 = s.bp from by omega]
  rw [show s.bp + 1 + 1 = s.bp + 2 from by omega]
  rw [show s.bp + 2 + 1 = s.bp + 3 from by omega]

/-- C1: starting from any stack state, pushing `a` argument words and a
return address, then running `prologue(_, a, l)` followed by `epilogue(_)`
leaves the stack differing from the pre-call state only by the `a` argument
words having been consumed and one return value (the `BOX 0`-initialised
scratch slot) having been pushed; `bp`, `nArgs` and `nLocals` are restored to
their pre-prologue values and the epilogue returns the pushed return
address. -/
theorem prologue_epilogue_frame_effect (s : Stack) (args : List Nat) (r l : Nat)
    (h1 : 0 ≤ s.top) (h2 : s.top ≤ s.begin) (h3 : s.begin < 1073741824)
    (h4 : 0 ≤ s.bp) (h5 : s.bp < 4294967296)
    (h6 : s.nArgs < 1073741824) (h7 : s.nLocals < 1073741824)
    (h8 : args.length < 1048576) (h9 : l < 1048576)
    (h10 : r < 4294967296)
    (h11 : (args.length : Int) + 1 < s.top) :
    ∃ s2 s3,
      ((s.pushMany args).push r).prologue args.length l = some s2 ∧
      s2.epilogue false = some (s3, r) ∧
      s3.bp = s.bp ∧ s3.nArgs = s.nArgs ∧ s3.nLocals = s.nLocals ∧
      s3.begin = s.begin ∧ s3.globalsSize = s.globalsSize ∧
      s3.top = s.top - 1 ∧ s3.mem s.top = BOX 0 ∧
      ∀ j : Int, s.top < j → s3.mem j = s.mem j := by
  have hPMtop : (s.pushMany args).top = s.top - args.length := pushMany_top s args
  have hS1top : ((s.pushMany args).push r).top = s.top - args.length - 1 := by
    simp only [Stack.push]
    rw [hPMtop]
  have hS1begin : ((s.pushMany args).push r).begin = s.begin := by
    simp only [Stack.push]
    exact pushMany_begin s args
  have hS1bp : ((s.pushMany args).push r).bp = s.bp := by
    simp only [Stack.push]
    exact pushMany_bp s args
  have hS1nA : ((s.pushMany args).push r).nArgs = s.nArgs := by
    simp only [Stack.push]
    exact pushMany_nArgs s args
  have hS1nL : ((s.pushMany args).push r).nLocals = s.nLocals := by
    simp only [Stack.push]
    exact pushMany_nLocals s args
  have hS1gs : ((s.pushMany args).push r).globalsSize = s.globalsSize := by
    simp only [Stack.push]
    exact pushMany_globalsSize s args
  have hS1mem_at : ((s.pushMany args).push r).mem (s.top - args.length) = r := by
    simp only [Stack.push]
    rw [if_pos (by rw [hPMtop])]
    omega
  have hS1mem_gt : ∀ j : Int, s.top < j →
      ((s.pushMany args).push r).mem j = s.mem j := by
    intro j hj
    simp only [Stack.push]
    rw [if_neg (by rw [hPMtop]; omega)]
    exact pushMany_mem_of_gt s args j hj
  have hsat4 : satAdd 4 l = 4 + l := by
    unfold satAdd
    dsimp only
    rw [if_neg (by omega)]
    omega
  have hguard : ((s.pushMany args).push r).enoughToPush (satAdd 4 l) = true := by
    unfold Stack.enoughToPush
    rw [hsat4, hS1top]
    simp only [decide_eq_true_eq]
    omega
  obtain ⟨s2, hpro, hs2top, hs2bp, hs2begin, hs2nA, hs2nL, hs2gs,
    hfill, hsavedbp, hsavednL, hsavednA, houtside⟩ :=
    prologue_fields ((s.pushMany args).push r) args.length l hguard h9
  rw [hS1top] at hs2top hs2bp hfill hsavedbp hsavednL hsavednA houtside
  rw [hS1begin] at hs2begin
  rw [hS1gs] at hs2gs
  rw [hS1bp] at hsavedbp
  rw [hS1nA] at hsavednA
  rw [hS1nL] at hsavednL
  have hsat5 : satAdd 5 s2.nArgs = 5 + args.length := by
    rw [hs2nA]
    unfold satAdd
    dsimp only
    rw [if_neg (by omega)]
    omega
  have hguard2 : s2.enoughToPop (satAdd 5 s2.nArgs) = true := by
    unfold Stack.enoughToPop
    rw [hsat5, hs2top, hs2begin]
    simp only [decide_eq_true_eq]
    omega
  have hepi := epilogue_false_fields s2 hguard2
  have haddr : s2.mem (s2.bp + 3) = r := by
    rw [hs2bp]
    rw [show s.top - ↑args.length - 1 - 2 + 3 = s.top - ↑args.length from by omega]
    rw [houtside _ (Or.inr (by omega))]
    rw [show ((s.pushMany args).push r) = (s.pushMany args).push r from rfl] at hS1mem_at
    exact hS1mem_at
  have hretval : s2.mem (s2.top + 1) = BOX 0 := by
    rw [hs2top]
    exact hfill _ (by omega) (by omega)
  refine ⟨s2,
    { mem := fun j => if j = s2.bp + 3 + s2.nArgs
                      then s2.mem (s2.top + 1) % 4294967296 else s2.mem j
      top := s2.bp + 3 + s2.nArgs - 1
      begin := s2.begin
      bp := ((s2.mem s2.bp : Nat) : Int)
      nArgs := (UNBOX (s2.mem (s2.bp + 2)) % (4294967296 : Int)).toNat
      nLocals := (UNBOX (s2.mem (s2.bp + 1)) % (4294967296 : Int)).toNat
      globalsSize := s2.globalsSize },
    hpro, ?_, ?_, ?_, ?_, ?_, ?_, ?_, ?_, ?_⟩
  · rw [hepi, haddr]
  · dsimp only
    rw [hs2bp, hsavedbp]
    unfold wordOfInt
    omega
  · dsimp only
    rw [hs2bp]
    rw [show s.top - ↑args.length - 1 - 2 + 2 = s.top - ↑args.length - 1 from by omega]
    rw [hsavednA]
    rw [UNBOX_BOX_of_range _ (by omega) (by omega)]
    omega
  · dsimp only
    rw [hs2bp]
    rw [show s.top - ↑args.length - 1 - 2 + 1 = s.top - ↑args.length - 1 - 1 from by omega]
    rw [hsavednL]
    rw [UNBOX_BOX_of_range _ (by omega) (by omega)]
    omega
  · exact hs2begin
  · exact hs2gs
  · dsimp only
    rw [hs2bp, hs2nA]
    omega
  · dsimp only
    rw [if_pos (by rw [hs2bp, hs2nA]; omega)]
    rw [hretval]
    rfl
  · intro j hj
    dsimp only
    rw [if_neg (by rw [hs2bp, hs2nA]; omega)]
    rw [houtside _ (Or.inr (by omega))]
    exact hS1mem_gt j hj

/-- Witness for `prologue_epilogue_frame_effect`: one argument word `11`,
return address `7`, one local. -/
theorem prologue_epilogue_frame_effect_witness :
    ∃ s2 s3,
      (((mkStack 0).pushMany [11]).push 7).prologue ([(11 : Nat)].length) 1 = some s2 ∧
      s2.epilogue false = some (s3, 7) ∧
      s3.bp = (mkStack 0).bp ∧ s3.nArgs = (mkStack 0).nArgs ∧
      s3.nLocals = (mkStack 0).nLocals ∧
      s3.begin = (mkStack 0).begin ∧ s3.globalsSize = (mkStack 0).globalsSize ∧
      s3.top = (mkStack 0).top - 1 ∧ s3.mem (mkStack 0).top = BOX 0 ∧
      ∀ j : Int, (mkStack 0).top < j → s3.mem j = (mkStack 0).mem j :=
  prologue_epilogue_frame_effect (mkStack 0) [11] 7 1
    (by decide) (by decide) (by decide) (by decide) (by decide) (by decide)
    (by decide) (by decide) (by decide) (by decide) (by decide)
